import Mathlib

/-
Shallow embedding of the vector-index adapter (azure-search-vector.ts) and the
document-analysis result parser (processor.ts), with theorems settling the
spec's claims about them.
-/

namespace Autopilot

/-- JSON-like values carried in vector-record metadata (the open mapping of
string keys to scalar/structured values of the data model). -/
inductive JsonVal where
  | null : JsonVal
  | bool (b : Bool) : JsonVal
  | num (n : Int) : JsonVal
  | str (s : String) : JsonVal
  | arr (elems : List JsonVal) : JsonVal
  | obj (fields : List (String × JsonVal)) : JsonVal

/-- A JavaScript object holding metadata: an ordered key/value list
(a JS object's own enumerable properties). -/
abbrev JsonObj := List (String × JsonVal)

/-- Property read `m[k]`: the first binding of key `k`, if any. -/
def jlookup (k : String) : JsonObj → Option JsonVal
  | [] => none
  | (k', v) :: t => if k' = k then some v else jlookup k t

/-- Whether the object has a binding for key `k`. -/
def hasKey (k : String) (m : JsonObj) : Bool :=
  m.any (fun p => decide (p.1 = k))

/-- Property write `m[k] = v`: replaces an existing binding in place, else
appends a new one at the end, as JS assignment does. -/
def setKey (k : String) (v : JsonVal) (m : JsonObj) : JsonObj :=
  if hasKey k m then m.map (fun p => if p.1 = k then (k, v) else p)
  else m ++ [(k, v)]

/-- JavaScript truthiness of a JSON value (`if (x)`). -/
def jsTruthy : JsonVal → Bool
  | JsonVal.null => false
  | JsonVal.bool b => b
  | JsonVal.num n => n != 0
  | JsonVal.str s => s != ""
  | JsonVal.arr _ => true
  | JsonVal.obj _ => true

/-- The expression `m.text ?? ""`: the value at key `text`, with `null` or an
absent key coalesced to the empty string. -/
def textCoalesce (m : JsonObj) : JsonVal :=
  match jlookup ("text") m with
  | some JsonVal.null => JsonVal.str ""
  | none => JsonVal.str ""
  | some v => v

/-- The opaque string stored in the backend's `metadata` field. A string in the
image of `JSON.stringify` is represented by the object it encodes
(`JSON.parse` recovers exactly that object; round-tripping JSON-safe values is
the external JSON library's contract, the adapter only forwards the string).
Any stored payload that `JSON.parse` rejects — and likewise an absent or empty
field, which the query path also leaves as `{}` — is `malformed`. -/
inductive MetaField where
  | json (o : JsonObj)
  | malformed

/-- A document as uploaded to / stored by the search backend: the four fields
of the adapter's schema (`id`, `vector`, `metadata`, `text`). Vector entries
are opaque numbers to the adapter; `Int` stands in for the numeric scalar. -/
structure UDoc where
  id : String
  vector : List Int
  metadata : MetaField
  text : JsonVal

/-- The document built for one record inside `upsert`:
`{ id, vector, metadata: JSON.stringify(meta), text: meta.text ?? "" }`. -/
def mkUploadDoc (id : String) (vec : List Int) (m : JsonObj) : UDoc :=
  { id := id, vector := vec, metadata := MetaField.json m, text := textCoalesce m }

/-- The id assigned to position `i`: `ids?.[i] ?? crypto.randomUUID()`, with the
random-id generator modelled by `gen` applied to the position. -/
def idAt (gen : Nat → String) (ids? : Option (List String)) (i : Nat) : String :=
  match ids? with
  | some l => (l[i]?).getD (gen i)
  | none => gen i

/-- The metadata at position `i`: `metadata[i] ?? {}`. -/
def metaAt (metadata : List JsonObj) (i : Nat) : JsonObj :=
  (metadata[i]?).getD []

/-- The `vectors.map((vector, i) => ...)` document-preparation loop of
`upsert`, with `i` the index of the head vector. -/
def prepareDocs (gen : Nat → String) (ids? : Option (List String))
    (metadata : List JsonObj) : List (List Int) → Nat → List UDoc
  | [], _ => []
  | v :: vs, i =>
      mkUploadDoc (idAt gen ids? i) v (metaAt metadata i)
        :: prepareDocs gen ids? metadata vs (i + 1)

/-- The fixed upload/delete batch size of the adapter. -/
def batchSize : Nat := 1000

/-- The `for (let i = 0; i < xs.length; i += batchSize) xs.slice(i, i + batchSize)`
chunking used by `upsert` and by the id-list delete path. -/
def chunks {α : Type} : List α → List (List α)
  | [] => []
  | x :: t => ((x :: t).take batchSize) :: chunks ((x :: t).drop batchSize)
termination_by l => l.length
decreasing_by
  simp [batchSize]
  omega

/-- The sequential batch-upload loop of `upsert`: issues batches in order,
appending each successful batch's ids to the accumulator (`uploadedIds`),
stopping at — and propagating — the first failure. Returns the list of batches
actually passed to `uploadDocuments` together with the call's outcome: on full
success the accumulated ids, on failure only the backend error (the JS
exception carries no ids). -/
def uploadBatches {E : Type} (upload : List UDoc → Except E Unit) :
    List (List UDoc) → List String → List (List UDoc) × Except E (List String)
  | [], acc => ([], Except.ok acc)
  | b :: bs, acc =>
    match upload b with
    | Except.error e => ([b], Except.error e)
    | Except.ok _ =>
      let r := uploadBatches upload bs (acc ++ b.map UDoc.id)
      (b :: r.1, r.2)

/-- The ids confirmed before the first failing batch: the contents of the
maximal successful prefix of the batch list (the value of `uploadedIds` at the
moment the failing upload throws). -/
def confirmedIds {E : Type} (upload : List UDoc → Except E Unit)
    (bs : List (List UDoc)) : List String :=
  ((bs.takeWhile (fun b => match upload b with
      | Except.ok _ => true
      | Except.error _ => false)).flatten).map UDoc.id

/-- The Azure-specific filter argument `{ odata?: string }`. -/
structure AzFilter where
  odata : Option String

/-- The filter actually sent with a search: `if (filter?.odata) odataFilter =
filter.odata` — present only when the field exists and is a non-empty
(truthy) string. -/
def effFilter : Option AzFilter → Option String
  | some f =>
    match f.odata with
    | some s => if s = "" then none else some s
    | none => none
  | none => none

/-- One hit of a backend search response: the stored document and its
optional relevance score (`result.score` may be absent). -/
structure SHit where
  doc : UDoc
  score : Option Int

/-- A query result as returned by the adapter. -/
structure QRes where
  id : String
  score : Int
  metadata : JsonObj
  vector : Option (List Int)

/-- Deserializing a stored metadata payload inside `query`: `JSON.parse` of a
well-formed payload yields its object; a malformed (or absent/empty) payload
leaves the empty mapping, the parse failure being swallowed by the
`try/catch`. -/
def parseMetaField : MetaField → JsonObj
  | MetaField.json o => o
  | MetaField.malformed => []

/-- The `if (doc.text) metadata.text = doc.text` fold-in step of `query`. -/
def foldText (t : JsonVal) (m : JsonObj) : JsonObj :=
  if jsTruthy t then setKey ("text") t m else m

/-- Per-hit result construction in `query`'s result loop. -/
def processHit (includeVector : Bool) (h : SHit) : QRes :=
  { id := h.doc.id
    score := h.score.getD 0
    metadata := foldText h.doc.text (parseMetaField h.doc.metadata)
    vector := if includeVector then some h.doc.vector else none }

/-- The whole result loop of `query`, over the hits the backend returned. -/
def processHits (includeVector : Bool) (hits : List SHit) : List QRes :=
  hits.map (processHit includeVector)

/-- The partial update passed to `updateVector`. -/
structure UpdateSpec where
  vector : Option (List Int)
  metadata : Option JsonObj

/-- A partial document passed to `mergeDocuments`: only the fields present in
the JS object literal are set. -/
structure MDoc where
  id : String
  vector : Option (List Int)
  metadata : Option MetaField
  text : Option JsonVal

/-- The merge document of the by-id `updateVector` path: vector if present;
metadata serialized if present, and then `text` only when
`update.metadata.text` is truthy. -/
def mergeDocById (id : String) (u : UpdateSpec) : MDoc :=
  { id := id
    vector := u.vector
    metadata := u.metadata.map MetaField.json
    text :=
      match u.metadata with
      | some m =>
        match jlookup ("text") m with
        | some v => if jsTruthy v then some v else none
        | none => none
      | none => none }

/-- The merge document of the by-filter `updateVector` path: vector if
present; if metadata is present, `text` is set to `update.metadata.text ?? ""`
(unlike the by-id path's truthiness guard). -/
def mergeDocByFilter (u : UpdateSpec) (id : String) : MDoc :=
  { id := id
    vector := u.vector
    metadata := u.metadata.map MetaField.json
    text := u.metadata.map textCoalesce }

/-- A call issued to the search backend, as observed at the client boundary.
`search` records the effective filter, the kNN count, the `top` value, the
query vector, and whether the vector field is selected. -/
inductive BCall where
  | search (filter : Option String) (knn : Nat) (top : Nat)
      (qvec : List Int) (withVector : Bool)
  | uploadDocs (docs : List UDoc)
  | mergeDocs (docs : List MDoc)
  | deleteDocs (ids : List String)

/-- The backend's response function for search calls: effective filter, kNN
count and query vector determine the returned hits. -/
abbrev SearchResp := Option String → Nat → List Int → List SHit

/-- The dummy neutral query vector `new Array(1536).fill(0)` used by the
filter-resolution paths. -/
def zeroVec : List Int := List.replicate 1536 0

/-- The adapter's `query`: one search call (kNN count and `top` both set to
`topK`, vector field selected only if requested) followed by the result loop.
Returns the trace of backend calls together with the results. -/
def queryModel (resp : SearchResp) (qv : List Int) (topK : Nat)
    (filter? : Option AzFilter) (includeVector : Bool) :
    List BCall × List QRes :=
  ([BCall.search (effFilter filter?) topK topK qv includeVector],
    processHits includeVector (resp (effFilter filter?) topK qv))

/-- Truthiness of `params.id` (`"id" in params && params.id`): present and
non-empty. -/
def idTruthy : Option String → Bool
  | some s => s != ""
  | none => false

/-- Truthiness of `ids && ids.length > 0`. -/
def idsNonempty : Option (List String) → Bool
  | some l => decide (0 < l.length)
  | none => false

/-- The by-filter branch of `updateVector`: resolve ids by a query with the
dummy zero vector and `topK` 10000, then merge into every resolved document in
one call, skipped when nothing matched. -/
def updateByFilter (resp : SearchResp) (filter? : Option AzFilter)
    (u : UpdateSpec) : List BCall :=
  let q := queryModel resp zeroVec 10000 filter? false
  let docs := q.2.map (fun r => mergeDocByFilter u r.id)
  q.1 ++ (if 0 < docs.length then [BCall.mergeDocs docs] else [])

/-- The adapter's `updateVector`: by-id merge when `params.id` is truthy, else
the by-filter path when a filter is present, else nothing at all (the function
returns without error and without contacting the backend). -/
def updateVectorModel (resp : SearchResp) (id? : Option String)
    (filter? : Option AzFilter) (u : UpdateSpec) : List BCall :=
  if idTruthy id? then [BCall.mergeDocs [mergeDocById (id?.getD "") u]]
  else if filter?.isSome then updateByFilter resp filter? u
  else []

/-- The id-list delete path: `deleteDocuments` in batches of 1000. -/
def deleteByIdsBatches (ids : List String) : List BCall :=
  (chunks ids).map BCall.deleteDocs

/-- The by-filter branch of `deleteVectors`: resolve ids by the same bounded
query, then one bulk delete over the resolved ids, skipped when nothing
matched. -/
def deleteByFilter (resp : SearchResp) (filter? : Option AzFilter) :
    List BCall :=
  let q := queryModel resp zeroVec 10000 filter? false
  q.1 ++ (if 0 < q.2.length then [BCall.deleteDocs (q.2.map QRes.id)] else [])

/-- The adapter's `deleteVectors`: batched deletes when a non-empty id list is
given, else the by-filter path when a filter is present, else nothing at all
(silent return, no backend call). -/
def deleteVectorsModel (resp : SearchResp) (ids? : Option (List String))
    (filter? : Option AzFilter) : List BCall :=
  if idsNonempty ids? then deleteByIdsBatches (ids?.getD [])
  else if filter?.isSome then deleteByFilter resp filter?
  else []

/-- The adapter's `upsert`: an optional pre-delete by filter, then document
preparation and the sequential batch upload. Returns the trace of backend
calls (merge/delete calls are modelled as always succeeding; the upload step
is the fallible one) and the outcome the caller sees: the concatenated ids on
success, or only the first failing batch's error. -/
def upsertModel {E : Type} (resp : SearchResp)
    (upload : List UDoc → Except E Unit) (gen : Nat → String)
    (vectors : List (List Int)) (metadata : List JsonObj)
    (ids? : Option (List String)) (deleteFilter? : Option String) :
    List BCall × Except E (List String) :=
  let pre : List BCall :=
    match deleteFilter? with
    | some df => deleteVectorsModel resp none (some { odata := some df })
    | none => []
  let docs := prepareDocs gen ids? metadata vectors 0
  let r := uploadBatches upload (chunks docs) []
  (pre ++ r.1.map BCall.uploadDocs, r.2)

/-- A recognized line of a raw analysis page. -/
structure RawLine where
  content : String

/-- A page of the raw analysis result. -/
structure RawPage where
  pageNumber : Nat
  lines : Option (List RawLine)
  width : Option Int
  height : Option Int

/-- A bounding region of a raw table. -/
structure BRegion where
  pageNumber : Nat

/-- A reported cell of a raw table. -/
structure RawCell where
  rowIndex : Nat
  columnIndex : Nat
  content : Option String

/-- A table of the raw analysis result. -/
structure RawTable where
  rowCount : Nat
  columnCount : Nat
  cells : Option (List RawCell)
  boundingRegions : Option (List BRegion)

/-- The raw analysis result handed to `parseAnalyzeResult`. -/
structure RawResult where
  content : Option String
  pages : Option (List RawPage)
  tables : Option (List RawTable)

/-- A normalized page record (`PageContent`). -/
structure PageContent where
  pageNumber : Nat
  content : String
  width : Option Int
  height : Option Int

/-- A normalized table record (`TableContent`). -/
structure TableContent where
  rowCount : Nat
  columnCount : Nat
  cells : List (List String)
  pageNumber : Option Nat

/-- Page text assembly: lines joined by newline when the `lines` field is
present, the empty string otherwise (an empty lines array also joins to ""). -/
def pageText : Option (List RawLine) → String
  | some ls => String.intercalate ("\n") (ls.map RawLine.content)
  | none => ""

/-- Conversion of one raw page: page number, width and height are carried
through unchanged. -/
def parsePage (p : RawPage) : PageContent :=
  { pageNumber := p.pageNumber, content := pageText p.lines
    width := p.width, height := p.height }

/-- The page-extraction loop of `parseAnalyzeResult` (no pages field means no
iterations). -/
def parsePages (ps : Option (List RawPage)) : List PageContent :=
  (ps.getD []).map parsePage

/-- The rowCount×columnCount grid pre-filled with empty strings. -/
def emptyGrid (r c : Nat) : List (List String) :=
  List.replicate r (List.replicate c "")

/-- In-place update of the element at one position, leaving the list unchanged
when the index is out of range. -/
def modifyAt {α : Type} (f : α → α) : Nat → List α → List α
  | _, [] => []
  | 0, x :: t => f x :: t
  | n + 1, x :: t => x :: modifyAt f n t

/-- The assignment `cells[r][c] = s`. -/
def writeCell (g : List (List String)) (r c : Nat) (s : String) :
    List (List String) :=
  modifyAt (fun row => row.set c s) r g

/-- One iteration of the cell-filling loop: write the cell's content (`?? ""`)
at its declared position when both indices are strictly within the declared
bounds, otherwise leave the grid untouched. -/
def placeCell (rc cc : Nat) (g : List (List String)) (cell : RawCell) :
    List (List String) :=
  if cell.rowIndex < rc ∧ cell.columnIndex < cc then
    writeCell g cell.rowIndex cell.columnIndex (cell.content.getD "")
  else g

/-- The full grid of one raw table: the empty grid, then every reported cell
placed in order. -/
def tableGrid (t : RawTable) : List (List String) :=
  (t.cells.getD []).foldl (placeCell t.rowCount t.columnCount)
    (emptyGrid t.rowCount t.columnCount)

/-- Conversion of one raw table, attaching the page number of the first
bounding region when there is one. -/
def parseTable (t : RawTable) : TableContent :=
  { rowCount := t.rowCount, columnCount := t.columnCount
    cells := tableGrid t
    pageNumber := ((t.boundingRegions.getD []).head?).map BRegion.pageNumber }

/-- The processed document assembled by `parseAnalyzeResult`. The wall-clock
`processedAt` timestamp is outside the embedding. -/
structure ProcessedDoc where
  content : String
  pages : List PageContent
  tables : Option (List TableContent)
  pageCount : Nat
  modelId : String

/-- The whole (pure) result conversion of the document processor. -/
def parseAnalyzeResult (modelId : String) (r : RawResult) : ProcessedDoc :=
  let tables := (r.tables.getD []).map parseTable
  { content := r.content.getD ""
    pages := parsePages r.pages
    tables := if 0 < tables.length then some tables else none
    pageCount := (r.pages.getD []).length
    modelId := modelId }

/-- The abstract distance metric of an index specification. -/
inductive Metric where
  | cosine
  | euclidean
  | dotproduct
deriving DecidableEq

/-- The adapter's `mapMetric`: Mastra metric name to Azure metric string,
defaulting to cosine. -/
def mapMetric : Option Metric → String
  | some Metric.euclidean => "euclidean"
  | some Metric.dotproduct => "dotProduct"
  | some Metric.cosine => "cosine"
  | none => "cosine"

/-- The parameters object of an ANN algorithm configuration. -/
structure AlgParams where
  metric : Option String
  m : Option Nat
  efConstruction : Option Nat
  efSearch : Option Nat

/-- One ANN algorithm configuration of a backend schema. -/
structure AnnAlgorithm where
  name : String
  kind : String
  parameters : Option AlgParams

/-- One vector-search profile of a backend schema. -/
structure VProfile where
  name : String
  algorithmConfigurationName : String

/-- The vectorSearch section of a backend schema. -/
structure VectorSearchCfg where
  algorithms : List AnnAlgorithm
  profiles : List VProfile

/-- One field of a backend index schema; optional members model properties
that may be absent from the underlying JS object. -/
structure SchemaField where
  name : String
  type : String
  key : Option Bool
  filterable : Option Bool
  searchable : Option Bool
  vectorSearchDimensions : Option Nat
  vectorSearchProfileName : Option String

/-- A backend index schema. -/
structure IndexSchema where
  name : String
  fields : List SchemaField
  vectorSearch : Option VectorSearchCfg

/-- The exact index schema built by `createIndex` for a specification
(name, dimension, optional metric defaulting to cosine). -/
def createIndexSchema (indexName : String) (dimension : Nat)
    (metric : Option Metric) : IndexSchema :=
  { name := indexName
    fields := [
      { name := "id", type := "Edm.String", key := some true
        filterable := some true, searchable := none
        vectorSearchDimensions := none, vectorSearchProfileName := none },
      { name := "vector", type := "Collection(Edm.Single)", key := none
        filterable := none, searchable := some true
        vectorSearchDimensions := some dimension
        vectorSearchProfileName := some "vector-profile" },
      { name := "metadata", type := "Edm.String", key := none
        filterable := some false, searchable := some false
        vectorSearchDimensions := none, vectorSearchProfileName := none },
      { name := "text", type := "Edm.String", key := none
        filterable := some false, searchable := some true
        vectorSearchDimensions := none, vectorSearchProfileName := none } ]
    vectorSearch := some
      { algorithms := [
          { name := "hnsw-algorithm", kind := "hnsw"
            parameters := some
              { metric := some (mapMetric metric), m := some 4
                efConstruction := some 400, efSearch := some 500 } } ]
        profiles := [
          { name := "vector-profile"
            algorithmConfigurationName := "hnsw-algorithm" } ] } }

/-- The dimension-extraction loop of `describeIndex`: the first field named
`vector` that carries a `vectorSearchDimensions` property, its value
(`?? 0`); zero when no such field exists. -/
def extractDimension : List SchemaField → Nat
  | [] => 0
  | f :: fs =>
    if f.name = "vector" ∧ f.vectorSearchDimensions.isSome then
      f.vectorSearchDimensions.getD 0
    else extractDimension fs

/-- The metric extraction of `describeIndex`: read off the first algorithm's
parameters when that algorithm is an hnsw one, defaulting to cosine for an
absent/unrecognized value. -/
def extractMetric (vs : Option VectorSearchCfg) : Metric :=
  match vs with
  | none => Metric.cosine
  | some cfg =>
    match cfg.algorithms.head? with
    | none => Metric.cosine
    | some alg =>
      match alg.parameters with
      | none => Metric.cosine
      | some ps =>
        if alg.kind = "hnsw" then
          match ps.metric with
          | some ("euclidean") => Metric.euclidean
          | some ("dotProduct") => Metric.dotproduct
          | _ => Metric.cosine
        else Metric.cosine

/-- The stats record returned by `describeIndex`. -/
structure IndexStatsM where
  dimension : Nat
  count : Nat
  metric : Metric

/-- The pure part of `describeIndex` applied to a schema the backend returned,
with the live document count supplied by the backend. -/
def describeOf (schema : IndexSchema) (docCount : Nat) : IndexStatsM :=
  { dimension := extractDimension schema.fields
    count := docCount
    metric := extractMetric schema.vectorSearch }

lemma jlookup_append (k : String) (m m' : JsonObj) :
    jlookup k (m ++ m') =
      match jlookup k m with
      | some v => some v
      | none => jlookup k m' := by
  induction m with
  | nil => simp [jlookup]
  | cons p t ih =>
    by_cases h : p.1 = k
    · simp [jlookup, h]
    · simp [jlookup, h, ih]

lemma hasKey_cons (k : String) (p : String × JsonVal) (t : JsonObj) :
    hasKey k (p :: t) = (decide (p.1 = k) || hasKey k t) := rfl

lemma jlookup_eq_none_of_hasKey_false (k : String) (m : JsonObj)
    (h : hasKey k m = false) : jlookup k m = none := by
  induction m with
  | nil => simp [jlookup]
  | cons p t ih =>
    rw [hasKey_cons] at h
    simp only [Bool.or_eq_false_iff, decide_eq_false_iff_not] at h
    simp [jlookup, h.1, ih h.2]

lemma jlookup_map_setEntry_self (k : String) (v : JsonVal) (m : JsonObj)
    (h : hasKey k m = true) :
    jlookup k (m.map (fun p => if p.1 = k then (k, v) else p)) = some v := by
  induction m with
  | nil => simp [hasKey] at h
  | cons p t ih =>
    by_cases hp : p.1 = k
    · rw [List.map_cons, if_pos hp]
      simp [jlookup]
    · rw [hasKey_cons, decide_eq_false hp, Bool.false_or] at h
      rw [List.map_cons, if_neg hp]
      simp [jlookup, hp, ih h]

lemma jlookup_setKey_self (k : String) (v : JsonVal) (m : JsonObj) :
    jlookup k (setKey k v m) = some v := by
  unfold setKey
  cases hk : hasKey k m with
  | true =>
    simp only [if_pos rfl]
    exact jlookup_map_setEntry_self k v m hk
  | false =>
    simp only [Bool.false_eq_true, if_false]
    rw [jlookup_append, jlookup_eq_none_of_hasKey_false k m hk]
    simp [jlookup]

lemma jlookup_map_setEntry (k k' : String) (v : JsonVal) (m : JsonObj)
    (h : k' ≠ k) :
    jlookup k' (m.map (fun p => if p.1 = k then (k, v) else p))
      = jlookup k' m := by
  induction m with
  | nil => simp
  | cons p t ih =>
    by_cases hp : p.1 = k
    · have hkk : ¬ (k = k') := fun hkk => h hkk.symm
      have hpk : ¬ (p.1 = k') := by rw [hp]; exact hkk
      rw [List.map_cons, if_pos hp]
      simp [jlookup, hkk, hpk, ih]
    · rw [List.map_cons, if_neg hp]
      by_cases hpk' : p.1 = k'
      · simp [jlookup, hpk']
      · simp [jlookup, hpk', ih]

lemma jlookup_setKey_ne (k k' : String) (v : JsonVal) (m : JsonObj)
    (h : k' ≠ k) : jlookup k' (setKey k v m) = jlookup k' m := by
  unfold setKey
  cases hk : hasKey k m with
  | true =>
    simp only [if_pos rfl]
    exact jlookup_map_setEntry k k' v m h
  | false =>
    simp only [Bool.false_eq_true, if_false]
    rw [jlookup_append]
    cases hlk : jlookup k' m with
    | some w => simp
    | none =>
      have hkk : ¬ (k = k') := fun hkk => h hkk.symm
      simp [jlookup, hkk]

lemma foldText_roundTrip (m : JsonObj) (v : JsonVal)
    (hv : jlookup ("text") m = some v) :
    jlookup ("text") (foldText (textCoalesce m) m) = some v
    ∧ ∀ k, k ≠ "text" → jlookup k (foldText (textCoalesce m) m) = jlookup k m := by
  have hset : jlookup ("text") (setKey ("text") v m) = some v :=
    jlookup_setKey_self _ v m
  have hsetne : ∀ k, k ≠ "text" → jlookup k (setKey ("text") v m) = jlookup k m :=
    fun k hk => jlookup_setKey_ne _ k v m hk
  unfold foldText textCoalesce
  rw [hv]
  cases v with
  | null => simp [jsTruthy, hv]
  | bool b =>
    cases b with
    | false => simp [jsTruthy, hv]
    | true => simpa [jsTruthy] using ⟨hset, hsetne⟩
  | num n =>
    by_cases hn : n = 0
    · simp [jsTruthy, hn, hv]
    · simpa [jsTruthy, hn] using ⟨hset, hsetne⟩
  | str s =>
    by_cases hs : s = ""
    · subst hs
      simp [jsTruthy, hv]
    · simpa [jsTruthy, hs] using ⟨hset, hsetne⟩
  | arr es => simpa [jsTruthy] using ⟨hset, hsetne⟩
  | obj fs => simpa [jsTruthy] using ⟨hset, hsetne⟩

/-- C3: round-trip of metadata through upsert serialization and query
deserialization. For a record upserted with metadata `m` containing key
`text` with value `v` (the upload document is `mkUploadDoc`, which serializes
`m` into the opaque metadata field and promotes `m.text ?? ""` into the
searchable text field), any query whose backend response includes that stored
record returns, at that hit's position, a result carrying the record's id
whose metadata has `text` bound to exactly `v` and every other key of `m`
bound to its original value (query deserializes the stored metadata and folds
a truthy stored text field back in under `text`). -/
theorem upsert_query_metadata_roundTrip (m : JsonObj) (v : JsonVal)
    (hv : jlookup ("text") m = some v) (idv : String) (vec : List Int)
    (score : Option Int) (inc : Bool) (hits₁ hits₂ : List SHit) :
    processHits inc (hits₁ ++ ⟨mkUploadDoc idv vec m, score⟩ :: hits₂)
      = processHits inc hits₁
        ++ processHit inc ⟨mkUploadDoc idv vec m, score⟩ :: processHits inc hits₂
    ∧ (processHit inc ⟨mkUploadDoc idv vec m, score⟩).id = idv
    ∧ jlookup ("text") (processHit inc ⟨mkUploadDoc idv vec m, score⟩).metadata
        = some v
    ∧ ∀ k, k ≠ "text" →
        jlookup k (processHit inc ⟨mkUploadDoc idv vec m, score⟩).metadata
          = jlookup k m := by
  have hmeta : (processHit inc ⟨mkUploadDoc idv vec m, score⟩).metadata
      = foldText (textCoalesce m) m := rfl
  refine ⟨by simp [processHits], rfl, ?_, ?_⟩
  · rw [hmeta]
    exact (foldText_roundTrip m v hv).1
  · rw [hmeta]
    exact (foldText_roundTrip m v hv).2

/-- Witness for the round-trip theorem at a concrete record: metadata
`{ a: 7, text: "hi" }` comes back from a query with `text = "hi"` and the
other key intact. -/
theorem upsert_query_metadata_roundTrip_witness :
    jlookup ("text")
        (processHit false
          ⟨mkUploadDoc ("d1") [1]
            [(("a" : String), JsonVal.num 7), (("text" : String), JsonVal.str ("hi"))],
            some 5⟩).metadata
      = some (JsonVal.str ("hi"))
    ∧ jlookup ("a")
        (processHit false
          ⟨mkUploadDoc ("d1") [1]
            [(("a" : String), JsonVal.num 7), (("text" : String), JsonVal.str ("hi"))],
            some 5⟩).metadata
      = some (JsonVal.num 7) := by
  have h := upsert_query_metadata_roundTrip
    [(("a" : String), JsonVal.num 7), (("text" : String), JsonVal.str ("hi"))]
    (JsonVal.str ("hi")) (by simp [jlookup]) ("d1") [1] (some 5) false [] []
  refine ⟨h.2.2.1, ?_⟩
  rw [h.2.2.2 ("a") (by simp)]
  simp [jlookup]

/-- C4: a stored metadata payload that cannot be deserialized degrades to an
empty metadata mapping for that single result (plus the folded-in text field
when the stored text is truthy); the query as a whole still succeeds — the
result list is the independent per-hit image, so every other hit is returned
unaffected. -/
theorem malformed_metadata_degrades (idv : String) (vec : List Int)
    (t : JsonVal) (score : Option Int) (inc : Bool) (hits₁ hits₂ : List SHit) :
    processHits inc (hits₁ ++ ⟨⟨idv, vec, MetaField.malformed, t⟩, score⟩ :: hits₂)
      = processHits inc hits₁
        ++ processHit inc ⟨⟨idv, vec, MetaField.malformed, t⟩, score⟩
          :: processHits inc hits₂
    ∧ (processHit inc ⟨⟨idv, vec, MetaField.malformed, t⟩, score⟩).metadata
        = (if jsTruthy t then [(("text" : String), t)] else [])
    ∧ (processHit inc ⟨⟨idv, vec, MetaField.malformed, t⟩, score⟩).id = idv := by
  refine ⟨by simp [processHits], ?_, rfl⟩
  by_cases ht : jsTruthy t
  · simp [processHit, parseMetaField, foldText, ht, setKey, hasKey]
  · simp [processHit, parseMetaField, foldText, ht]

/-- Read access `cells[r][c]` on a grid, with defaults for out-of-range
indices (used only within the declared bounds in the theorems). -/
def getEntry (g : List (List String)) (r c : Nat) : String :=
  (((g[r]?).getD [])[c]?).getD ""

lemma getLast?_cons_eq {α : Type} (a : α) (l : List α) :
    (a :: l).getLast? = some (l.getLast?.getD a) := by
  induction l generalizing a with
  | nil => rfl
  | cons b t ih =>
    rw [List.getLast?_cons_cons, ih b]
    simp

lemma modifyAt_length {α : Type} (f : α → α) (n : Nat) (l : List α) :
    (modifyAt f n l).length = l.length := by
  induction l generalizing n with
  | nil => cases n <;> rfl
  | cons x t ih =>
    cases n with
    | zero => rfl
    | succ n => simp [modifyAt, ih]

lemma getElem?_modifyAt_self {α : Type} (f : α → α) (n : Nat) (l : List α) :
    (modifyAt f n l)[n]? = (l[n]?).map f := by
  induction l generalizing n with
  | nil => cases n <;> simp [modifyAt]
  | cons x t ih =>
    cases n with
    | zero => simp [modifyAt]
    | succ n => simpa [modifyAt] using ih n

lemma getElem?_modifyAt_ne {α : Type} (f : α → α) (n m : Nat) (l : List α)
    (h : m ≠ n) : (modifyAt f n l)[m]? = l[m]? := by
  induction l generalizing n m with
  | nil => cases n <;> simp [modifyAt]
  | cons x t ih =>
    cases n with
    | zero =>
      cases m with
      | zero => exact absurd rfl h
      | succ m => simp [modifyAt]
    | succ n =>
      cases m with
      | zero => simp [modifyAt]
      | succ m => simpa [modifyAt] using ih n m (fun hm => h (by rw [hm]))

lemma modifyAt_forall {α : Type} (P : α → Prop) (f : α → α) (n : Nat)
    (l : List α) (hl : ∀ x ∈ l, P x) (hf : ∀ x, P x → P (f x)) :
    ∀ x ∈ modifyAt f n l, P x := by
  induction l generalizing n with
  | nil => intro x hx; cases n <;> simp [modifyAt] at hx
  | cons y t ih =>
    cases n with
    | zero =>
      intro x hx
      rcases List.mem_cons.mp hx with hx | hx
      · exact hx ▸ hf y (hl y (List.mem_cons_self y t))
      · exact hl x (List.mem_cons_of_mem y hx)
    | succ n =>
      intro x hx
      rcases List.mem_cons.mp hx with hx | hx
      · exact hx ▸ hl y (List.mem_cons_self y t)
      · exact ih n (fun z hz => hl z (List.mem_cons_of_mem y hz)) x hx

lemma getEntry_writeCell_self (g : List (List String)) (r c : Nat)
    (v : String) (hc : c < ((g[r]?).getD []).length) :
    getEntry (writeCell g r c v) r c = v := by
  unfold getEntry writeCell
  rw [getElem?_modifyAt_self]
  cases hg : g[r]? with
  | none => rw [hg] at hc; simp at hc
  | some row =>
    rw [hg] at hc
    simp only [Option.getD_some] at hc
    simp [List.getElem?_set_self, hc]

lemma getEntry_writeCell_ne (g : List (List String)) (r c r' c' : Nat)
    (v : String) (h : r' ≠ r ∨ c' ≠ c) :
    getEntry (writeCell g r c v) r' c' = getEntry g r' c' := by
  unfold getEntry writeCell
  rcases h with h | h
  · rw [getElem?_modifyAt_ne _ _ _ _ h]
  · by_cases hr : r' = r
    · subst hr
      rw [getElem?_modifyAt_self]
      have hcc : c ≠ c' := fun hcc => h hcc.symm
      cases hg : g[r']? with
      | none => simp
      | some row => simp [List.getElem?_set_ne, hcc]
    · rw [getElem?_modifyAt_ne _ _ _ _ hr]

/-- The shape invariant of the cell grid: exactly `rc` rows of `cc` entries. -/
def gridShape (g : List (List String)) (rc cc : Nat) : Prop :=
  g.length = rc ∧ ∀ row ∈ g, row.length = cc

lemma gridShape_emptyGrid (rc cc : Nat) : gridShape (emptyGrid rc cc) rc cc := by
  constructor
  · simp [emptyGrid]
  · intro row hrow
    rw [List.eq_of_mem_replicate hrow]
    simp

lemma gridShape_placeCell (rc cc : Nat) (g : List (List String))
    (cell : RawCell) (h : gridShape g rc cc) :
    gridShape (placeCell rc cc g cell) rc cc := by
  unfold placeCell
  by_cases hb : cell.rowIndex < rc ∧ cell.columnIndex < cc
  · rw [if_pos hb]
    refine ⟨?_, ?_⟩
    · unfold writeCell
      rw [modifyAt_length]
      exact h.1
    · exact modifyAt_forall _ _ _ _ h.2 (fun row hrow => by simpa using hrow)
  · rw [if_neg hb]
    exact h

lemma gridShape_foldl (rc cc : Nat) (l : List RawCell) (g : List (List String))
    (h : gridShape g rc cc) :
    gridShape (l.foldl (placeCell rc cc) g) rc cc := by
  induction l generalizing g with
  | nil => exact h
  | cons cell t ih => exact ih _ (gridShape_placeCell rc cc g cell h)

lemma foldl_placeCell_filter (rc cc : Nat) (l : List RawCell)
    (g : List (List String)) :
    l.foldl (placeCell rc cc) g
      = (l.filter (fun cl =>
          decide (cl.rowIndex < rc ∧ cl.columnIndex < cc))).foldl
          (placeCell rc cc) g := by
  induction l generalizing g with
  | nil => rfl
  | cons cell t ih =>
    by_cases hb : cell.rowIndex < rc ∧ cell.columnIndex < cc
    · have hf : (cell :: t).filter
          (fun cl => decide (cl.rowIndex < rc ∧ cl.columnIndex < cc))
          = cell :: t.filter
              (fun cl => decide (cl.rowIndex < rc ∧ cl.columnIndex < cc)) := by
        simp [List.filter_cons, hb]
      rw [List.foldl_cons, hf, List.foldl_cons]
      exact ih _
    · have hf : (cell :: t).filter
          (fun cl => decide (cl.rowIndex < rc ∧ cl.columnIndex < cc))
          = t.filter
              (fun cl => decide (cl.rowIndex < rc ∧ cl.columnIndex < cc)) := by
        simp [List.filter_cons, hb]
      have hpc : placeCell rc cc g cell = g := by rw [placeCell, if_neg hb]
      rw [List.foldl_cons, hpc, hf]
      exact ih g

lemma getEntry_foldl_placeCell (rc cc r c : Nat) (hr : r < rc) (hc : c < cc)
    (l : List RawCell) (g : List (List String)) (hg : gridShape g rc cc) :
    getEntry (l.foldl (placeCell rc cc) g) r c
      = match (l.filter (fun cl =>
            decide (cl.rowIndex = r ∧ cl.columnIndex = c))).getLast? with
        | some cell => cell.content.getD ""
        | none => getEntry g r c := by
  induction l generalizing g with
  | nil => rfl
  | cons cell t ih =>
    rw [List.foldl_cons]
    have hg' : gridShape (placeCell rc cc g cell) rc cc :=
      gridShape_placeCell rc cc g cell hg
    rw [ih (placeCell rc cc g cell) hg']
    by_cases hm : cell.rowIndex = r ∧ cell.columnIndex = c
    · have hf : (cell :: t).filter
          (fun cl => decide (cl.rowIndex = r ∧ cl.columnIndex = c))
          = cell :: t.filter
              (fun cl => decide (cl.rowIndex = r ∧ cl.columnIndex = c)) := by
        simp [List.filter_cons, hm]
      rw [hf, getLast?_cons_eq]
      cases hlast : (t.filter (fun cl =>
          decide (cl.rowIndex = r ∧ cl.columnIndex = c))).getLast? with
      | some last => simp only [Option.getD_some]
      | none =>
        simp only [Option.getD_none]
        have hr' : r < g.length := by rw [hg.1]; exact hr
        have hrowlen : c < ((g[r]?).getD []).length := by
          cases hgr : g[r]? with
          | none => rw [List.getElem?_eq_getElem hr'] at hgr; exact absurd hgr (by simp)
          | some row =>
            have hrow : row ∈ g := by
              rcases List.getElem?_eq_some_iff.mp hgr with ⟨hlt, hrw⟩
              exact hrw ▸ List.getElem_mem hlt
            rw [Option.getD_some, hg.2 row hrow]
            exact hc
        have hb : cell.rowIndex < rc ∧ cell.columnIndex < cc := by
          rw [hm.1, hm.2]
          exact ⟨hr, hc⟩
        rw [placeCell, if_pos hb, hm.1, hm.2]
        exact getEntry_writeCell_self g r c _ hrowlen
    · have hf : (cell :: t).filter
          (fun cl => decide (cl.rowIndex = r ∧ cl.columnIndex = c))
          = t.filter
              (fun cl => decide (cl.rowIndex = r ∧ cl.columnIndex = c)) := by
        simp [List.filter_cons, hm]
      have hne : getEntry (placeCell rc cc g cell) r c = getEntry g r c := by
        rw [placeCell]
        by_cases hb : cell.rowIndex < rc ∧ cell.columnIndex < cc
        · rw [if_pos hb]
          apply getEntry_writeCell_ne
          by_cases hrr : r = cell.rowIndex
          · right
            intro hcc
            exact hm ⟨hrr.symm, hcc.symm⟩
          · left
            exact hrr
        · rw [if_neg hb]
      rw [hf, hne]

lemma getEntry_emptyGrid (rc cc r c : Nat) :
    getEntry (emptyGrid rc cc) r c = "" := by
  unfold getEntry emptyGrid
  by_cases hr : r < rc
  · rw [List.getElem?_replicate, if_pos hr, Option.getD_some]
    by_cases hc : c < cc
    · rw [List.getElem?_replicate, if_pos hc, Option.getD_some]
    · rw [List.getElem?_replicate, if_neg hc, Option.getD_none]
  · rw [List.getElem?_replicate, if_neg hr, Option.getD_none]
    simp

/-- C7: for every raw table, the parsed cell grid is exactly `rowCount` rows
of exactly `columnCount` strings; cells reported outside the declared bounds
are silently dropped (the fold over all reported cells equals the fold over
only the in-bounds ones — no error is possible, the conversion is a total
function); and within bounds each grid position holds the content (`?? ""`)
of the last reported cell at that position, or the initial empty string when
no cell was reported there. -/
theorem table_grid_bounds (t : RawTable) :
    (parseTable t).cells.length = t.rowCount
    ∧ (∀ row ∈ (parseTable t).cells, row.length = t.columnCount)
    ∧ tableGrid t
        = ((t.cells.getD []).filter (fun cl =>
            decide (cl.rowIndex < t.rowCount ∧ cl.columnIndex < t.columnCount))).foldl
            (placeCell t.rowCount t.columnCount)
            (emptyGrid t.rowCount t.columnCount)
    ∧ ∀ r c, r < t.rowCount → c < t.columnCount →
        getEntry (parseTable t).cells r c
          = match ((t.cells.getD []).filter (fun cl =>
                decide (cl.rowIndex = r ∧ cl.columnIndex = c))).getLast? with
            | some cell => cell.content.getD ""
            | none => "" := by
  have hshape := gridShape_foldl t.rowCount t.columnCount (t.cells.getD [])
    (emptyGrid t.rowCount t.columnCount)
    (gridShape_emptyGrid t.rowCount t.columnCount)
  have hcells : (parseTable t).cells = tableGrid t := rfl
  refine ⟨?_, ?_, ?_, ?_⟩
  · rw [hcells]
    exact hshape.1
  · rw [hcells]
    exact hshape.2
  · exact foldl_placeCell_filter t.rowCount t.columnCount (t.cells.getD [])
      (emptyGrid t.rowCount t.columnCount)
  · intro r c hr hc
    rw [hcells]
    unfold tableGrid
    rw [getEntry_foldl_placeCell t.rowCount t.columnCount r c hr hc
      (t.cells.getD [])
      (emptyGrid t.rowCount t.columnCount)
      (gridShape_emptyGrid t.rowCount t.columnCount)]
    cases hlast : ((t.cells.getD []).filter (fun cl =>
        decide (cl.rowIndex = r ∧ cl.columnIndex = c))).getLast? with
    | some last => rfl
    | none => exact getEntry_emptyGrid t.rowCount t.columnCount r c

/-- Data for C7's witness: the spec's 2×2 scenario with one in-bounds cell
(0,0)="A" plus one out-of-bounds cell with rowIndex 2. -/
def tW : RawTable :=
  { rowCount := 2, columnCount := 2
    cells := some [⟨0, 0, some ("A")⟩, ⟨2, 0, some ("X")⟩]
    boundingRegions := none }

/-- Witness for the table-grid theorem on the spec's concrete scenario: the
grid has two rows, position (0,0) holds "A", and position (1,1) — like the
dropped out-of-bounds cell's target — stays the empty string. -/
theorem table_grid_bounds_witness :
    (parseTable tW).cells.length = 2
    ∧ getEntry (parseTable tW).cells 0 0 = "A"
    ∧ getEntry (parseTable tW).cells 1 1 = "" := by
  have h := table_grid_bounds tW
  refine ⟨h.1, ?_, ?_⟩
  · rw [h.2.2.2 0 0 (by decide) (by decide)]
    rfl
  · rw [h.2.2.2 1 1 (by decide) (by decide)]
    rfl

/-- Amended C8: the parser carries page numbers through from the raw result
unchanged and in input order; consequently the output page numbers are
1-indexed and non-decreasing exactly when the backend's raw result already
satisfies that — the parser itself neither establishes nor repairs the
invariant. -/
theorem pages_passthrough (ps : Option (List RawPage))
    (h1 : ∀ p ∈ ps.getD [], 1 ≤ p.pageNumber)
    (h2 : List.Chain' (fun a b => a.pageNumber ≤ b.pageNumber) (ps.getD [])) :
    (parsePages ps).map PageContent.pageNumber
        = (ps.getD []).map RawPage.pageNumber
    ∧ (∀ q ∈ parsePages ps, 1 ≤ q.pageNumber)
    ∧ List.Chain' (fun a b => a.pageNumber ≤ b.pageNumber) (parsePages ps) := by
  refine ⟨?_, ?_, ?_⟩
  · unfold parsePages
    rw [List.map_map]
    rfl
  · intro q hq
    simp only [parsePages, List.mem_map] at hq
    obtain ⟨p, hp, rfl⟩ := hq
    exact h1 p hp
  · unfold parsePages
    rw [List.chain'_map]
    exact h2

/-- Witness for the page-number pass-through theorem at an ordered two-page
raw result. -/
theorem pages_passthrough_witness :
    (parsePages (some [⟨1, none, none, none⟩, ⟨2, none, none, none⟩])).map
        PageContent.pageNumber = [1, 2] :=
  (pages_passthrough (some [⟨1, none, none, none⟩, ⟨2, none, none, none⟩])
    (by decide) (by simp [List.chain'_cons])).1

/-- Counterexample to C8 as stated: a raw analysis result whose backend
reports pages out of order. The parser copies the numbers through, so the
output pages sequence is [2, 1] — not non-decreasing (a fortiori not strictly
so), refuting the claim that the parser's output always has 1-indexed,
non-decreasing page numbers for every raw analysis result. -/
theorem pages_monotone_cex :
    (parsePages (some [⟨2, none, none, none⟩, ⟨1, none, none, none⟩])).map
        PageContent.pageNumber = [2, 1]
    ∧ ¬ ((∀ q ∈ parsePages (some [⟨2, none, none, none⟩, ⟨1, none, none, none⟩]),
            1 ≤ q.pageNumber)
         ∧ List.Chain' (fun a b => a.pageNumber ≤ b.pageNumber)
            (parsePages (some [⟨2, none, none, none⟩, ⟨1, none, none, none⟩]))) := by
  refine ⟨rfl, ?_⟩
  intro h
  have := h.2
  simp [parsePages, parsePage, List.chain'_cons] at this

/-- C9: for every valid index specification (name, positive dimension, metric
in the three-element enum), the schema built by `createIndex` composed with
`describeIndex`'s reverse extraction is the identity on dimension and metric
(with the backend assumed to store and return the schema as created, the
document count supplied live). -/
theorem createIndex_describeIndex_roundTrip (nm : String) (dim : Nat)
    (m : Metric) (cnt : Nat) (_hdim : 0 < dim) :
    describeOf (createIndexSchema nm dim (some m)) cnt
      = { dimension := dim, count := cnt, metric := m } := by
  cases m <;> rfl

/-- Witness for the create/describe round-trip at a concrete specification. -/
theorem createIndex_describeIndex_roundTrip_witness :
    0 < 3
    ∧ describeOf (createIndexSchema ("idx") 3 (some Metric.euclidean)) 0
        = { dimension := 3, count := 0, metric := Metric.euclidean } :=
  ⟨by decide,
    createIndex_describeIndex_roundTrip ("idx") 3 Metric.euclidean 0 (by decide)⟩

/-- The results of the bounded filter-resolution query shared by the
by-filter update and delete paths. -/
def resolvedResults (resp : SearchResp) (f : AzFilter) : List QRes :=
  (queryModel resp zeroVec 10000 (some f) false).2

/-- C5: every by-filter updateVector / deleteVectors call resolves matching
ids by a single search with the given filter, the zero-valued neutral query
vector and topK capped at 10000; when the resolution returns nothing, no
mutation call is issued; otherwise exactly one mutation call (field merge,
resp. bulk delete) is issued over exactly the resolved id set; and since the
backend returns at most `top` hits, at most 10000 records are ever mutated. -/
theorem filter_mutation_protocol (resp : SearchResp) (f : AzFilter)
    (u : UpdateSpec)
    (hcap : (resp (effFilter (some f)) 10000 zeroVec).length ≤ 10000) :
    updateVectorModel resp none (some f) u
      = BCall.search (effFilter (some f)) 10000 10000 zeroVec false
          :: (if 0 < (resolvedResults resp f).length
              then [BCall.mergeDocs ((resolvedResults resp f).map
                      (fun r => mergeDocByFilter u r.id))]
              else [])
    ∧ deleteVectorsModel resp none (some f)
      = BCall.search (effFilter (some f)) 10000 10000 zeroVec false
          :: (if 0 < (resolvedResults resp f).length
              then [BCall.deleteDocs ((resolvedResults resp f).map QRes.id)]
              else [])
    ∧ ((resolvedResults resp f).map (fun r => mergeDocByFilter u r.id)).map
          MDoc.id
        = (resolvedResults resp f).map QRes.id
    ∧ ((resolvedResults resp f).map QRes.id).length ≤ 10000 := by
  refine ⟨?_, ?_, ?_, ?_⟩
  · simp [updateVectorModel, idTruthy, updateByFilter, queryModel,
      resolvedResults]
  · simp [deleteVectorsModel, idsNonempty, deleteByFilter, queryModel,
      resolvedResults]
  · rw [List.map_map]
    rfl
  · simpa [resolvedResults, queryModel, processHits] using hcap

/-- A one-hit backend response used by concrete instances. -/
def respOne : SearchResp := fun _ _ _ => [⟨mkUploadDoc ("a") [0] [], none⟩]

/-- Witness for the filter-mutation protocol at a concrete one-hit backend. -/
theorem filter_mutation_protocol_witness :
    (respOne (effFilter (some ⟨some ("p")⟩)) 10000 zeroVec).length ≤ 10000
    ∧ ((resolvedResults respOne ⟨some ("p")⟩).map QRes.id).length ≤ 10000 :=
  ⟨by simp [respOne],
    (filter_mutation_protocol respOne ⟨some ("p")⟩ ⟨none, none⟩
      (by simp [respOne])).2.2.2⟩

/-- Amended C6: when neither an id/ids value nor a filter is supplied,
updateVector and deleteVectors are silent no-ops — they issue no backend call
and return normally, signalling no error of any kind; when both are supplied,
the id/ids path is silently chosen and the filter is ignored (no resolution
search is issued). -/
theorem update_delete_dispatch (resp : SearchResp) (u : UpdateSpec)
    (s : String) (f : AzFilter) (l : List String)
    (hs : s ≠ "") (hl : l ≠ []) :
    updateVectorModel resp none none u = []
    ∧ deleteVectorsModel resp none none = []
    ∧ updateVectorModel resp (some s) (some f) u
        = [BCall.mergeDocs [mergeDocById s u]]
    ∧ deleteVectorsModel resp (some l) (some f) = deleteByIdsBatches l := by
  refine ⟨rfl, rfl, ?_, ?_⟩
  · simp [updateVectorModel, idTruthy, hs]
  · simp [deleteVectorsModel, idsNonempty, List.length_pos, hl]

/-- Witness for the dispatch theorem at concrete arguments. -/
theorem update_delete_dispatch_witness :
    updateVectorModel (fun _ _ _ => []) (some ("x")) (some ⟨some ("p")⟩)
        ⟨none, none⟩
      = [BCall.mergeDocs [mergeDocById ("x") ⟨none, none⟩]] :=
  (update_delete_dispatch (fun _ _ _ => []) ⟨none, none⟩ ("x") ⟨some ("p")⟩
    [("i1")] (by decide) (by decide)).2.2.1

/-- A no-hit backend response used by concrete instances. -/
def respNone : SearchResp := fun _ _ _ => []

/-- An empty update payload used by concrete instances. -/
def updNone : UpdateSpec := ⟨none, none⟩

/-- Counterexample to C6 as stated: at a concrete call with neither id nor
filter, updateVector and deleteVectors issue no backend call and complete
normally — the adapter functions are total, there is no InvalidArgument (nor
any other) failure; and at a concrete call with both supplied, the id/ids
path is silently picked (a bare merge, resp. a bare batched delete, with no
resolution search), instead of the call being rejected. -/
theorem update_delete_dispatch_cex :
    updateVectorModel respNone none none updNone = []
    ∧ deleteVectorsModel respNone none none = []
    ∧ updateVectorModel respNone (some ("x")) (some ⟨some ("p")⟩) updNone
        = [BCall.mergeDocs [mergeDocById ("x") updNone]]
    ∧ deleteVectorsModel respNone (some [("a")]) (some ⟨some ("p")⟩)
        = [BCall.deleteDocs [("a")]] := by
  refine ⟨rfl, rfl, rfl, ?_⟩
  have h1 : ([("a")] : List String).take batchSize = [("a")] :=
    List.take_of_length_le (by simp [batchSize])
  have h2 : ([("a")] : List String).drop batchSize = [] :=
    List.drop_eq_nil_of_le (by simp [batchSize])
  have hch : chunks ([("a")] : List String) = [[("a")]] := by
    simp only [chunks]
    rw [h1, h2]
    simp [chunks]
  simp [deleteVectorsModel, idsNonempty, deleteByIdsBatches, hch]

/-- C10: the filter-resolution query of both by-filter mutation paths always
carries the fixed zero vector of length 1536, independent of the target
index's declared dimension — so for any declared dimension other than 1536
the resolution query's vector length differs from the index dimension. -/
theorem filterResolution_vector_fixed_1536 (resp : SearchResp) (f : AzFilter)
    (u : UpdateSpec) (d : Nat) (hd : d ≠ 1536) :
    (updateVectorModel resp none (some f) u).head?
        = some (BCall.search (effFilter (some f)) 10000 10000 zeroVec false)
    ∧ (deleteVectorsModel resp none (some f)).head?
        = some (BCall.search (effFilter (some f)) 10000 10000 zeroVec false)
    ∧ zeroVec.length = 1536
    ∧ zeroVec.length ≠ d := by
  refine ⟨?_, ?_, by simp only [zeroVec, List.length_replicate], ?_⟩
  · simp [updateVectorModel, idTruthy, updateByFilter, queryModel]
  · simp [deleteVectorsModel, idsNonempty, deleteByFilter, queryModel]
  · simp only [zeroVec, List.length_replicate]
    omega

/-- Witness for the fixed-1536 theorem at a concrete dimension 42. -/
theorem filterResolution_vector_fixed_1536_witness :
    (42 : Nat) ≠ 1536 ∧ zeroVec.length ≠ 42 :=
  ⟨by decide,
    (filterResolution_vector_fixed_1536 respNone ⟨some ("p")⟩ updNone 42
      (by decide)).2.2.2⟩

lemma chunks_cons_of_ne {α : Type} (l : List α) (h : l ≠ []) :
    chunks l = l.take batchSize :: chunks (l.drop batchSize) := by
  cases l with
  | nil => exact absurd rfl h
  | cons x t => simp only [chunks]

lemma chunks_eq_single {α : Type} (l : List α) (h1 : l ≠ [])
    (h2 : l.length ≤ batchSize) : chunks l = [l] := by
  rw [chunks_cons_of_ne l h1, List.take_of_length_le h2,
    List.drop_eq_nil_of_le h2]
  simp [chunks]

lemma chunks_flatten {α : Type} : ∀ l : List α, (chunks l).flatten = l
  | [] => by simp [chunks]
  | x :: t => by
    rw [chunks_cons_of_ne (x :: t) (by simp), List.flatten_cons,
      chunks_flatten ((x :: t).drop batchSize), List.take_append_drop]
termination_by l => l.length
decreasing_by
  simp [batchSize]
  omega

lemma prepareDocs_map_id (gen : Nat → String) (ids? : Option (List String))
    (md : List JsonObj) (vs : List (List Int)) (i : Nat) :
    (prepareDocs gen ids? md vs i).map UDoc.id
      = (List.range vs.length).map (fun j => idAt gen ids? (i + j)) := by
  induction vs generalizing i with
  | nil => rfl
  | cons v t ih =>
    simp only [prepareDocs, List.map_cons, List.length_cons,
      List.range_succ_eq_map, List.map_map]
    refine congrArg₂ List.cons (by simp [mkUploadDoc]) ?_
    rw [ih (i + 1)]
    apply List.map_congr_left
    intro j hj
    simp only [Function.comp]
    congr 1
    omega

lemma uploadBatches_ok {E : Type} (upload : List UDoc → Except E Unit)
    (bs : List (List UDoc)) (acc : List String)
    (h : ∀ b ∈ bs, upload b = Except.ok ()) :
    uploadBatches upload bs acc
      = (bs, Except.ok (acc ++ (bs.flatten).map UDoc.id)) := by
  induction bs generalizing acc with
  | nil => simp [uploadBatches]
  | cons b t ih =>
    simp only [uploadBatches, h b (List.mem_cons_self b t)]
    rw [ih (acc ++ b.map UDoc.id) (fun x hx => h x (List.mem_cons_of_mem b hx))]
    simp [List.map_append, List.append_assoc]

lemma uploadBatches_error {E : Type} (upload : List UDoc → Except E Unit)
    (pre : List (List UDoc)) (bad : List UDoc) (post : List (List UDoc))
    (acc : List String) (e : E)
    (hpre : ∀ b ∈ pre, upload b = Except.ok ())
    (hbad : upload bad = Except.error e) :
    uploadBatches upload (pre ++ bad :: post) acc
      = (pre ++ [bad], Except.error e) := by
  induction pre generalizing acc with
  | nil => simp [uploadBatches, hbad]
  | cons b t ih =>
    simp only [List.cons_append, uploadBatches,
      hpre b (List.mem_cons_self b t)]
    simp only [List.append_eq]
    rw [ih (acc ++ b.map UDoc.id) (fun x hx => hpre x (List.mem_cons_of_mem b hx))]

lemma range_map_getD_eq (l : List String) (gen : Nat → String) :
    (List.range l.length).map (fun j => (l[j]?).getD (gen j)) = l := by
  apply List.ext_getElem (by simp)
  intro i h1 h2
  simp only [List.getElem_map, List.getElem_range]
  rw [List.getElem?_eq_getElem h2, Option.getD_some]

/-- C2: when every batch upload succeeds, `upsert` with an explicit id list of
the vectors' length returns exactly those ids in input order, and `upsert`
without explicit ids returns the freshly generated id for each position in
input order — N distinct ids when the generator is injective (injectivity
models the freshness of `crypto.randomUUID`), one per input vector,
positionally. -/
theorem upsert_returns_ids {E : Type} (resp : SearchResp)
    (upload : List UDoc → Except E Unit) (gen : Nat → String)
    (vectors : List (List Int)) (metadata : List JsonObj) (l : List String)
    (df : Option String)
    (hup : ∀ b, upload b = Except.ok ())
    (hgen : Function.Injective gen)
    (hlen : l.length = vectors.length) :
    (upsertModel resp upload gen vectors metadata (some l) df).2
        = Except.ok l
    ∧ (upsertModel resp upload gen vectors metadata none df).2
        = Except.ok ((List.range vectors.length).map gen)
    ∧ ((List.range vectors.length).map gen).Nodup
    ∧ ((List.range vectors.length).map gen).length = vectors.length := by
  have hmain : ∀ ids? : Option (List String),
      (upsertModel resp upload gen vectors metadata ids? df).2
        = Except.ok ((List.range vectors.length).map
            (fun j => idAt gen ids? j)) := by
    intro ids?
    have h0 : (upsertModel resp upload gen vectors metadata ids? df).2
        = (uploadBatches upload
            (chunks (prepareDocs gen ids? metadata vectors 0)) []).2 := rfl
    rw [h0, uploadBatches_ok upload _ [] (fun b _ => hup b)]
    simp [chunks_flatten, prepareDocs_map_id]
  refine ⟨?_, ?_, ?_, by simp⟩
  · rw [hmain (some l)]
    have : (List.range vectors.length).map (fun j => idAt gen (some l) j)
        = (List.range l.length).map (fun j => (l[j]?).getD (gen j)) := by
      rw [hlen]
      rfl
    rw [this, range_map_getD_eq]
  · rw [hmain none]
    rfl
  · exact (List.nodup_range vectors.length).map hgen

/-- A generator of visibly distinct ids used by concrete instances. -/
def genW (n : Nat) : String := String.mk (List.replicate n ('a'))

lemma genW_injective : Function.Injective genW := by
  intro a b h
  have hd := congrArg String.data h
  have hl := congrArg List.length hd
  simpa [genW] using hl

/-- Witness for the upsert id theorem: two vectors with explicit ids come
back as exactly those ids. -/
theorem upsert_returns_ids_witness :
    (upsertModel respNone (fun _ => (Except.ok () : Except Unit Unit)) genW
        [[1], [2]] [] (some [("a"), ("b")]) none).2
      = Except.ok [("a"), ("b")] :=
  (upsert_returns_ids respNone (fun _ => (Except.ok () : Except Unit Unit))
    genW [[1], [2]] [] [("a"), ("b")] none (fun _ => rfl) genW_injective
    rfl).1

/-- Amended C1: when a batch upload fails, the batches after it are never
issued (the trace stops at the failing batch) and the underlying backend
error propagates to the caller as the call's entire outcome — the ids
confirmed by the earlier successful batches are not part of it; partial
progress is lost to the caller, not made visible. -/
theorem upsert_batch_failure {E : Type} (resp : SearchResp)
    (upload : List UDoc → Except E Unit) (gen : Nat → String)
    (vectors : List (List Int)) (metadata : List JsonObj)
    (ids? : Option (List String)) (pre : List (List UDoc)) (bad : List UDoc)
    (post : List (List UDoc)) (e : E)
    (hsplit : chunks (prepareDocs gen ids? metadata vectors 0)
        = pre ++ bad :: post)
    (hpre : ∀ b ∈ pre, upload b = Except.ok ())
    (hbad : upload bad = Except.error e) :
    upsertModel resp upload gen vectors metadata ids? none
      = ((pre ++ [bad]).map BCall.uploadDocs, Except.error e) := by
  have h0 : upsertModel resp upload gen vectors metadata ids? none
      = ((uploadBatches upload
            (chunks (prepareDocs gen ids? metadata vectors 0)) []).1.map
            BCall.uploadDocs,
         (uploadBatches upload
            (chunks (prepareDocs gen ids? metadata vectors 0)) []).2) := rfl
  rw [h0, hsplit, uploadBatches_error upload pre bad post [] e hpre hbad]

/-- Witness for the batch-failure theorem: a one-batch upload whose only
batch fails yields exactly the error, with that single issued batch in the
trace. -/
theorem upsert_batch_failure_witness :
    upsertModel respNone (fun _ => (Except.error 7 : Except Nat Unit)) genW
        [[1]] [] none none
      = ([BCall.uploadDocs [mkUploadDoc (genW 0) [1] []]], Except.error 7) := by
  have hch : chunks (prepareDocs genW none [] [[1]] 0)
      = [] ++ [mkUploadDoc (genW 0) [1] []] :: [] := by
    have : prepareDocs genW none [] [[1]] 0
        = [mkUploadDoc (genW 0) [1] []] := rfl
    rw [this, chunks_eq_single _ (by simp) (by simp [batchSize])]
    rfl
  exact upsert_batch_failure respNone
    (fun _ => (Except.error 7 : Except Nat Unit)) genW [[1]] [] none []
    [mkUploadDoc (genW 0) [1] []] [] 7 hch
    (fun b hb => absurd hb (List.not_mem_nil b)) rfl

/-- A constant-id generator used by the counterexample runs. -/
def genC : Nat → String := fun _ => "g"

/-- The document every counterexample record prepares to. -/
def docC : UDoc := mkUploadDoc ("g") [] []

/-- An upload behaviour that accepts exactly the full batches and rejects the
final short batch. -/
def uploadC : List UDoc → Except Nat Unit :=
  fun b => if b.length = batchSize then Except.ok () else Except.error 0

lemma prepareDocs_replicate_genC (n i : Nat) :
    prepareDocs genC none [] (List.replicate n []) i
      = List.replicate n docC := by
  induction n generalizing i with
  | zero => rfl
  | succ n ih =>
    simp only [List.replicate_succ, prepareDocs]
    rw [ih (i + 1)]
    have hhead : mkUploadDoc (idAt genC none i) [] (metaAt [] i) = docC := by
      simp [idAt, metaAt, genC, docC, mkUploadDoc]
    rw [hhead]

lemma replicate_docC_ne_nil (n : Nat) (hn : 0 < n) :
    List.replicate n docC ≠ [] := by
  intro hnil
  have := congrArg List.length hnil
  rw [List.length_replicate, List.length_nil] at this
  omega

lemma chunks_replicate_1001 :
    chunks (List.replicate 1001 docC)
      = [List.replicate 1000 docC, [docC]] := by
  rw [chunks_cons_of_ne _ (replicate_docC_ne_nil 1001 (by omega)),
    List.take_replicate, List.drop_replicate]
  have hmin : min batchSize 1001 = 1000 := by
    rw [batchSize]
    exact min_eq_left (by omega)
  have hsub : 1001 - batchSize = 1 := by rw [batchSize]
  rw [hmin, hsub, chunks_eq_single (List.replicate 1 docC)
    (replicate_docC_ne_nil 1 (by omega))
    (by rw [List.length_replicate, batchSize]; omega)]
  rw [List.replicate_one]

lemma chunks_replicate_2001 :
    chunks (List.replicate 2001 docC)
      = [List.replicate 1000 docC, List.replicate 1000 docC, [docC]] := by
  rw [chunks_cons_of_ne _ (replicate_docC_ne_nil 2001 (by omega)),
    List.take_replicate, List.drop_replicate]
  have hmin : min batchSize 2001 = 1000 := by
    rw [batchSize]
    exact min_eq_left (by omega)
  have hsub : 2001 - batchSize = 1001 := by rw [batchSize]
  rw [hmin, hsub, chunks_replicate_1001]

lemma uploadC_full : uploadC (List.replicate 1000 docC) = Except.ok () := by
  unfold uploadC
  rw [List.length_replicate, if_pos (by rw [batchSize])]

lemma uploadC_single : uploadC [docC] = Except.error 0 := by
  unfold uploadC
  rw [if_neg (by rw [List.length_singleton, batchSize]; omega)]

lemma upsertModel_snd {E : Type} (resp : SearchResp)
    (upload : List UDoc → Except E Unit) (gen : Nat → String)
    (vectors : List (List Int)) (metadata : List JsonObj)
    (ids? : Option (List String)) :
    (upsertModel resp upload gen vectors metadata ids? none).2
      = (uploadBatches upload
          (chunks (prepareDocs gen ids? metadata vectors 0)) []).2 := rfl

lemma confirmedIds_cons_ok {E : Type} (upload : List UDoc → Except E Unit)
    (b : List UDoc) (bs : List (List UDoc)) (h : upload b = Except.ok ()) :
    confirmedIds upload (b :: bs)
      = b.map UDoc.id ++ confirmedIds upload bs := by
  simp [confirmedIds, List.takeWhile_cons, h]

lemma confirmedIds_cons_error {E : Type} (upload : List UDoc → Except E Unit)
    (b : List UDoc) (bs : List (List UDoc)) (e : E)
    (h : upload b = Except.error e) :
    confirmedIds upload (b :: bs) = [] := by
  simp [confirmedIds, List.takeWhile_cons, h]

/-- Counterexample to C1 as stated: two multi-batch upserts — 1001 records
(two batches) and 2001 records (three batches) — each failing at the final
short batch. Both calls yield the identical outcome `Except.error 0`, yet the
ids confirmed before the failure number 1000 in the first run and 2000 in the
second. The caller-visible result is therefore independent of the confirmed
ids: the upsert loop's `uploadedIds` is discarded when `uploadDocuments`
throws, so the ids already confirmed are NOT returned to the caller alongside
the error — partial progress is lost, refuting the claim. -/
theorem upsert_partial_progress_cex :
    (upsertModel respNone uploadC genC (List.replicate 1001 []) [] none
        none).2 = Except.error 0
    ∧ (upsertModel respNone uploadC genC (List.replicate 2001 []) [] none
        none).2 = Except.error 0
    ∧ (confirmedIds uploadC
        (chunks (prepareDocs genC none [] (List.replicate 1001 []) 0))).length
        = 1000
    ∧ (confirmedIds uploadC
        (chunks (prepareDocs genC none [] (List.replicate 2001 []) 0))).length
        = 2000 := by
  have hd1 : prepareDocs genC none [] (List.replicate 1001 ([] : List Int)) 0
      = List.replicate 1001 docC := prepareDocs_replicate_genC 1001 0
  have hd2 : prepareDocs genC none [] (List.replicate 2001 ([] : List Int)) 0
      = List.replicate 2001 docC := prepareDocs_replicate_genC 2001 0
  refine ⟨?_, ?_, ?_, ?_⟩
  · rw [upsertModel_snd, hd1, chunks_replicate_1001]
    have hub := uploadBatches_error uploadC [List.replicate 1000 docC] [docC]
      [] [] 0 (fun b hb => by rw [List.mem_singleton.mp hb]; exact uploadC_full)
      uploadC_single
    simp only [List.singleton_append] at hub
    rw [hub]
  · rw [upsertModel_snd, hd2, chunks_replicate_2001]
    have hub := uploadBatches_error uploadC
      [List.replicate 1000 docC, List.replicate 1000 docC] [docC] [] [] 0
      (fun b hb => by
        rcases List.mem_cons.mp hb with h | h
        · rw [h]; exact uploadC_full
        · rw [List.mem_singleton.mp h]; exact uploadC_full)
      uploadC_single
    simp only [List.cons_append, List.nil_append] at hub
    rw [hub]
  · rw [hd1, chunks_replicate_1001,
      confirmedIds_cons_ok uploadC _ _ uploadC_full,
      confirmedIds_cons_error uploadC _ _ 0 uploadC_single]
    simp only [List.append_nil, List.map_replicate, List.length_replicate]
  · rw [hd2, chunks_replicate_2001,
      confirmedIds_cons_ok uploadC _ _ uploadC_full,
      confirmedIds_cons_ok uploadC _ _ uploadC_full,
      confirmedIds_cons_error uploadC _ _ 0 uploadC_single]
    simp only [List.append_nil, List.map_replicate, List.length_append,
      List.length_replicate]

end Autopilot
